import Mathlib

/-!
Verification of the blur-benchmark aggregation core (`src/blur/scripts/plot_blur.py`).

The numeric measurements carried by the CSV rows are modelled as exact
rationals (`ℚ`); a value that pandas would hold as `NaN` (missing, or produced
by `to_numeric(..., errors="coerce")` on an unparsable field) is modelled as
`none` in `Option ℚ`.  Standard deviations and confidence half-widths involve a
square root, so they live in `ℝ`: the aggregate table stores the (rational)
sample variance, and the `std`/`ci95` columns of the script are the derived
functions `elapsed_std`, `elapsed_ci95`, `rss_kb_std`, `rss_kb_ci95` below.
-/

/-- One raw row of `runs.csv` as seen after `pd.read_csv` + `pd.to_numeric`
coercion: numeric columns are `Option ℚ` (`none` = NaN / unparsable), string
columns are `String`.  `appVal` / `whichVal` are the values of the `app` and
`which` columns; whether those columns exist at all is schema-level data kept
in `RunsInput`. -/
structure RawRow where
  appVal : String
  whichVal : String
  image : String
  radius : Option ℚ
  threads : Option ℚ
  rep : Option ℚ
  elapsed_s : Option ℚ
  max_rss_kb : Option ℚ
deriving DecidableEq

/-- A parsed `runs.csv`: which of the `app` / `which` columns are present in
the header, plus the data rows. -/
structure RunsInput where
  hasApp : Bool
  hasWhich : Bool
  rows : List RawRow
deriving DecidableEq

/-- `app_label` column of `load_runs` (line 57 of the script). -/
def appLabelOf (app : String) : String :=
  if app = "blur_par" then "parallel (blur_par)" else "sequential (blur)"

/-- One normalized run record produced by `load_runs`. -/
structure Run where
  image : String
  radius : Option ℚ
  app : String
  app_label : String
  t_effective : Option ℚ
  elapsed_s : Option ℚ
  max_rss_kb : Option ℚ
deriving DecidableEq, Inhabited

/-- `load_runs` (lines 42-58): copy `which` into `app` when only the legacy
column exists, raise `ValueError` when neither exists, and derive
`t_effective` (sequential rows forced to 1, parallel rows keep their raw
`threads` value, NaN included) and `app_label`. -/
def load_runs (inp : RunsInput) : Except String (List Run) :=
  if inp.hasApp = false ∧ inp.hasWhich = false then
    .error "Input CSV lacks app column; expected new bench schema."
  else
    .ok (inp.rows.map (fun row =>
      let app := if inp.hasApp then row.appVal else row.whichVal
      { image := row.image
        radius := row.radius
        app := app
        app_label := appLabelOf app
        t_effective := if app = "blur_par" then row.threads else some 1
        elapsed_s := row.elapsed_s
        max_rss_kb := row.max_rss_kb }))

/-- Grouping key of `aggregate` (line 62): `(image, radius, app, app_label,
t_effective)`, with NaN keys kept as their own group (`dropna=False`). -/
abbrev RunKey := String × Option ℚ × String × String × Option ℚ

def groupKey (r : Run) : RunKey :=
  (r.image, r.radius, r.app, r.app_label, r.t_effective)

/-- Rows of one group. -/
def groupRows (rs : List Run) (k : RunKey) : List Run :=
  rs.filter (fun r => decide (groupKey r = k))

/-- The distinct keys observed in the input (order of the groups is
immaterial to every property below). -/
def keyList (rs : List Run) : List RunKey :=
  (rs.map groupKey).dedup

/-- NaN-skipping mean, as pandas `mean` computes it: the mean of the present
values, NaN when no value is present. -/
def nanMean (xs : List ℚ) : Option ℚ :=
  if xs.length = 0 then none else some (xs.sum / xs.length)

/-- Sample variance with `ddof = 1` over the present values, as pandas `std`
squares it: NaN (`none`) when fewer than two values are present.  The `std`
column of the script is the square root of this value. -/
def sampleVar (xs : List ℚ) : Option ℚ :=
  if 2 ≤ xs.length then
    some (((xs.map (fun x => (x - xs.sum / xs.length) ^ 2)).sum) / ((xs.length : ℚ) - 1))
  else none

/-- One row of the aggregate table (lines 61-73).  The `elapsed_std` /
`rss_kb_std` columns are `Real.sqrt` of the variance fields and are defined
below as functions into `ℝ`. -/
structure Agg where
  image : String
  radius : Option ℚ
  app : String
  app_label : String
  t_effective : Option ℚ
  runs : ℕ
  elapsed_mean : Option ℚ
  elapsed_var : Option ℚ
  rss_kb_mean : Option ℚ
  rss_kb_var : Option ℚ
deriving DecidableEq, Inhabited

def aggOfGroup (k : RunKey) (rows : List Run) : Agg :=
  { image := k.1
    radius := k.2.1
    app := k.2.2.1
    app_label := k.2.2.2.1
    t_effective := k.2.2.2.2
    runs := rows.length
    elapsed_mean := nanMean (rows.filterMap Run.elapsed_s)
    elapsed_var := sampleVar (rows.filterMap Run.elapsed_s)
    rss_kb_mean := nanMean (rows.filterMap Run.max_rss_kb)
    rss_kb_var := sampleVar (rows.filterMap Run.max_rss_kb) }

/-- `aggregate` (lines 61-73): one `Agg` per observed key. -/
def aggregate (rs : List Run) : List Agg :=
  (keyList rs).map (fun k => aggOfGroup k (groupRows rs k))

/-- `ci95` helper (lines 37-39): `1.96 * (std / sqrt (max n 1))`. -/
noncomputable def ci95 (std : ℝ) (n : ℕ) : ℝ :=
  1.96 * (std / Real.sqrt (max n 1))

/-- The `elapsed_std` column: square root of the sample variance, NaN when the
variance is NaN (pandas `std` with fewer than two observations). -/
noncomputable def elapsed_std (a : Agg) : Option ℝ :=
  a.elapsed_var.map (fun v => Real.sqrt (v : ℝ))

noncomputable def rss_kb_std (a : Agg) : Option ℝ :=
  a.rss_kb_var.map (fun v => Real.sqrt (v : ℝ))

/-- The `elapsed_ci95` column (line 71): `ci95(agg["elapsed_std"].fillna(0),
agg["runs"])` — the NaN std is replaced by 0 only inside this computation. -/
noncomputable def elapsed_ci95 (a : Agg) : ℝ :=
  ci95 ((elapsed_std a).getD 0) a.runs

/-- The `rss_kb_ci95` column (line 72). -/
noncomputable def rss_kb_ci95 (a : Agg) : ℝ :=
  ci95 ((rss_kb_std a).getD 0) a.runs

/-- Aggregate row enriched by `build_speedup_and_efficiency` (lines 75-90). -/
structure Derived extends Agg where
  base_time : Option ℚ
  speedup : Option ℚ
  efficiency : Option ℚ
deriving DecidableEq, Inhabited

/-- Baseline row selected for `(img, rad)` (lines 76-86): among the rows with
`t_effective == 1` and `app` in `{blur_par, blur}`, the sort by the indicator
`(app != "blur_par")` followed by `drop_duplicates(keep="first")` keeps the
`blur_par` row when one exists and the `blur` row otherwise.  The group key of
`aggregate` makes the matching row unique for each of the two `app` values, so
this is a two-step `find?`. -/
def baseEntry (agg : List Agg) (img : String) (rad : Option ℚ) : Option Agg :=
  match agg.find? (fun a =>
      decide (a.image = img ∧ a.radius = rad ∧ a.app = "blur_par" ∧ a.t_effective = some 1)) with
  | some a => some a
  | none => agg.find? (fun a =>
      decide (a.image = img ∧ a.radius = rad ∧ a.app = "blur" ∧ a.t_effective = some 1))

/-- `base_time` joined onto a row (`merge(..., how="left")`, line 87): NaN when
no baseline row matches, and the baseline's own (possibly NaN) `elapsed_mean`
otherwise. -/
def baseTimeFor (agg : List Agg) (img : String) (rad : Option ℚ) : Option ℚ :=
  (baseEntry agg img rad).bind Agg.elapsed_mean

/-- Lines 87-89 for a single row: `speedup = base_time / elapsed_mean` (NaN
propagates), `efficiency = speedup / t_effective.replace(0, nan)`.  (In ℚ the
division of a present `base_time` by a present `elapsed_mean == 0` is the
junk value 0 where numpy would produce `inf`; no claim touches that case.) -/
def enrich (agg : List Agg) (a : Agg) : Derived :=
  let bt : Option ℚ := baseTimeFor agg a.image a.radius
  let sp : Option ℚ :=
    match bt, a.elapsed_mean with
    | some b, some e => some (b / e)
    | _, _ => none
  let tEff : Option ℚ :=
    match a.t_effective with
    | some t => if t = 0 then none else some t
    | none => none
  let eff : Option ℚ :=
    match tEff, sp with
    | some t, some s => some (s / t)
    | _, _ => none
  { toAgg := a, base_time := bt, speedup := sp, efficiency := eff }

/-- `build_speedup_and_efficiency` (lines 75-90): left-join of every aggregate
row against its baseline, one output row per input row. -/
def build_speedup_and_efficiency (agg : List Agg) : List Derived :=
  agg.map (enrich agg)

/-- One row of `summary.csv` (lines 196-216).  The `int(...)` casts and
`round(..., 6)` applied for display are rendering glue and are not modelled:
the fields carry the exact joined values. -/
structure SummaryRow where
  image : String
  radius : ℚ
  baseline_prog : String
  baseline_time : Option ℚ
  best_threads : Option ℚ
  best_time : Option ℚ
  best_speedup : Option ℚ
  efficiency_at_best : Option ℚ
deriving DecidableEq, Inhabited

/-- Bytewise-lexicographic string comparison, as pandas `sort_values` orders
an object column. -/
def charListLt : List Char → List Char → Bool
  | [], [] => false
  | [], _ :: _ => true
  | _ :: _, [] => false
  | a :: as, b :: bs => if a < b then true else if b < a then false else charListLt as bs

/-- First element minimal under `lt` (first occurrence wins on ties), the
list-order behaviour of `sort_values(...).iloc[0]` and of `idxmin`. -/
def firstMinBy (lt : α → α → Bool) (l : List α) : Option α :=
  l.foldl (fun acc x =>
    match acc with
    | none => some x
    | some y => if lt x y then some x else some y) none

/-- The parallel rows of the enriched table for one `(img, rad)` key
(`par_grp`, line 193). -/
def parRows (agg : List Agg) (img : String) (rad : ℚ) : List Derived :=
  (build_speedup_and_efficiency agg).filter (fun d =>
    decide (d.image = img ∧ d.radius = some rad ∧ d.app = "blur_par"))

/-- The body of the `write_summary` loop (lines 186-216) for one `(img, rad)`
key with a non-NaN radius (the outer `groupby(["image","radius"])` drops NaN
keys).  `.ok none` models the `continue` on an empty `base_rows`; `.error`
models the `ValueError` that `idxmin` raises when every parallel
`elapsed_mean` is NaN. -/
def summaryFor (agg : List Agg) (img : String) (rad : ℚ) : Except String (Option SummaryRow) :=
  match firstMinBy (fun a b => charListLt a.app.data b.app.data)
      (agg.filter (fun a =>
        decide (a.image = img ∧ a.radius = some rad ∧ a.t_effective = some 1))) with
  | none => .ok none
  | some base_row =>
    match parRows agg img rad with
    | [] =>
      .ok (some { image := img, radius := rad
                  baseline_prog := base_row.app_label
                  baseline_time := base_row.elapsed_mean
                  best_threads := some 1
                  best_time := base_row.elapsed_mean
                  best_speedup := some 1
                  efficiency_at_best := some 1 })
    | _ :: _ =>
      match firstMinBy (fun a b => decide (a.elapsed_mean.getD 0 < b.elapsed_mean.getD 0))
          ((parRows agg img rad).filter (fun d => d.elapsed_mean.isSome)) with
      | none => .error "idxmin over all-NaN elapsed_mean"
      | some best =>
        .ok (some { image := img, radius := rad
                    baseline_prog := base_row.app_label
                    baseline_time := base_row.elapsed_mean
                    best_threads := best.t_effective
                    best_time := best.elapsed_mean
                    best_speedup := best.speedup
                    efficiency_at_best := best.efficiency })

/-! ## HotspotParser

The profiler-report parser described in §4.4 of the specification is part of
the bench script, which is not under `src/` (only its consumer,
`write_profile_summary`, is: it reads the already-parsed hotspot CSVs and
prints a head-truncated digest in file order).  The parser is therefore
modelled from the spec. -/

/-- Split a character list at every occurrence of the delimiter (the spec's
step 1, "split the line on the delimiter into tokens"). -/
def splitOnCharAux (d : Char) : List Char → List Char → List (List Char)
  | [], acc => [acc.reverse]
  | c :: cs, acc =>
    if c = d then acc.reverse :: splitOnCharAux d cs []
    else splitOnCharAux d cs (c :: acc)

def splitOnChar (d : Char) (s : List Char) : List (List Char) :=
  splitOnCharAux d s []

/-- Strict non-negative integer literal: nonempty, digits only. -/
def parseNatStrict (s : List Char) : Option ℕ :=
  if s.length > 0 ∧ s.all Char.isDigit then
    some (s.foldl (fun a c => 10 * a + (c.toNat - 48)) 0)
  else none

/-- Unsigned decimal literal `a` or `a.b`, as an exact rational. -/
def parseDecQ (s : List Char) : Option ℚ :=
  match splitOnChar '.' s with
  | [i] => (parseNatStrict i).map (fun n => (n : ℚ))
  | [i, f] =>
    match parseNatStrict i, parseNatStrict f with
    | some a, some b => some ((a : ℚ) + (b : ℚ) / (10 : ℚ) ^ f.length)
    | _, _ => none
  | _ => none

/-- Drop one trailing percent sign, when present. -/
def stripTrailingPct (t : List Char) : List Char :=
  if t.getLast? = some '%' then t.dropLast else t

/-- Drop thousands-separator commas. -/
def stripSeps (t : List Char) : List Char :=
  t.filter (fun c => decide (c ≠ ','))

/-- Modelled from the spec: one ranked line of a profiler self-cost report
(§3 HotspotRecord).  The producing parser is in the bench script, which is
absent from `src/`. -/
structure HotspotRecord where
  rank : ℕ
  function : String
  cost_count : Option ℚ
  cost_percent : Option ℚ
  calls : Option ℕ
deriving DecidableEq, Inhabited

/-- Modelled from the spec: the per-line state machine of §4.4.  Skip the line
when fewer than 4 tokens or when the first token is not a non-negative
integer; read the trailing fixed fields from the end (`calls`, `cost_percent`,
`cost_count` with 5+ tokens; `cost_percent`, `cost_count` with exactly 4);
rejoin the middle tokens with the delimiter as `function`; strip a trailing
`%` from `cost_percent` and thousands separators from `cost_count` / `calls`,
each field falling back to missing when it still fails to parse. -/
def parseHotspotLine (delim : Char) (line : String) : Option HotspotRecord :=
  let toks := splitOnChar delim line.data
  if toks.length < 4 then none
  else
    match parseNatStrict (toks.headD []) with
    | none => none
    | some rk =>
      let n := toks.length
      if 5 ≤ n then
        some { rank := rk
               function := String.mk (List.intercalate [delim] ((toks.drop 1).take (n - 4)))
               cost_count := parseDecQ (stripSeps (toks.getD (n - 3) []))
               cost_percent := parseDecQ (stripTrailingPct (toks.getD (n - 2) []))
               calls := parseNatStrict (stripSeps (toks.getD (n - 1) [])) }
      else
        some { rank := rk
               function := String.mk (List.intercalate [delim] ((toks.drop 1).take (n - 3)))
               cost_count := parseDecQ (stripSeps (toks.getD (n - 2) []))
               cost_percent := parseDecQ (stripTrailingPct (toks.getD (n - 1) []))
               calls := none }

/-- Comparison on optional costs, `none` ordered below every present value. -/
def optQLe : Option ℚ → Option ℚ → Bool
  | none, _ => true
  | some _, none => false
  | some a, some b => decide (a ≤ b)

/-- Modelled from the spec: descending order by `cost_percent`, ties broken by
`cost_count` descending (§4.4 post-processing).  `hotspotDescLe a b` says `a`
may come before `b`. -/
def hotspotDescLe (a b : HotspotRecord) : Bool :=
  if a.cost_percent = b.cost_percent then optQLe b.cost_count a.cost_count
  else optQLe b.cost_percent a.cost_percent

/-- Modelled from the spec: parse every line, silently skipping malformed
ones, then sort the full output sequence by the descending cost order. -/
def parseHotspotReport (delim : Char) (input : List String) : List HotspotRecord :=
  (input.filterMap (parseHotspotLine delim)).mergeSort hotspotDescLe

/-! ## Helper lemmas -/

lemma aggregate_mem {rs : List Run} {a : Agg} (h : a ∈ aggregate rs) :
    ∃ k, k ∈ keyList rs ∧ a = aggOfGroup k (groupRows rs k) := by
  simp only [aggregate, List.mem_map] at h
  obtain ⟨k, hk, rfl⟩ := h
  exact ⟨k, hk, rfl⟩

lemma keyList_exists_run {rs : List Run} {k : RunKey} (h : k ∈ keyList rs) :
    ∃ r ∈ rs, groupKey r = k := by
  simp only [keyList, List.mem_dedup, List.mem_map] at h
  exact h

lemma groupRows_length_pos {rs : List Run} {k : RunKey} (h : k ∈ keyList rs) :
    0 < (groupRows rs k).length := by
  obtain ⟨r, hr, hk⟩ := keyList_exists_run h
  have : r ∈ groupRows rs k := by
    simp only [groupRows, List.mem_filter, decide_eq_true_eq]
    exact ⟨hr, hk⟩
  exact List.length_pos.mpr (fun he => by simp [he] at this)

lemma load_runs_app_label {inp : RunsInput} {rs : List Run}
    (h : load_runs inp = .ok rs) : ∀ r ∈ rs, r.app_label = appLabelOf r.app := by
  unfold load_runs at h
  split at h
  · exact absurd h (by simp)
  · obtain rfl : _ = rs := by
      cases h
      rfl
    intro r hr
    simp only [List.mem_map] at hr
    obtain ⟨row, _, rfl⟩ := hr
    rfl

lemma aggregate_unique {rs : List Run}
    (hlab : ∀ r ∈ rs, r.app_label = appLabelOf r.app)
    {a b : Agg} (ha : a ∈ aggregate rs) (hb : b ∈ aggregate rs)
    (h1 : a.image = b.image) (h2 : a.radius = b.radius) (h3 : a.app = b.app)
    (h4 : a.t_effective = b.t_effective) : a = b := by
  obtain ⟨ka, hka, rfl⟩ := aggregate_mem ha
  obtain ⟨kb, hkb, rfl⟩ := aggregate_mem hb
  have keyLab : ∀ k, k ∈ keyList rs → k.2.2.2.1 = appLabelOf k.2.2.1 := by
    intro k hk
    obtain ⟨r, hr, rfl⟩ := keyList_exists_run hk
    exact hlab r hr
  have e1 : ka.1 = kb.1 := h1
  have e2 : ka.2.1 = kb.2.1 := h2
  have e3 : ka.2.2.1 = kb.2.2.1 := h3
  have e5 : ka.2.2.2.2 = kb.2.2.2.2 := h4
  have e4 : ka.2.2.2.1 = kb.2.2.2.1 := by
    rw [keyLab ka hka, keyLab kb hkb, e3]
  have : ka = kb := by
    obtain ⟨a1, a2, a3, a4, a5⟩ := ka
    obtain ⟨b1, b2, b3, b4, b5⟩ := kb
    simp only at e1 e2 e3 e4 e5
    simp [e1, e2, e3, e4, e5]
  rw [this]

lemma enrich_toAgg (agg : List Agg) (a : Agg) : (enrich agg a).toAgg = a := rfl

lemma enrich_base_time (agg : List Agg) (a : Agg) :
    (enrich agg a).base_time = baseTimeFor agg a.image a.radius := rfl

lemma mem_build {agg : List Agg} {d : Derived}
    (h : d ∈ build_speedup_and_efficiency agg) : ∃ a ∈ agg, enrich agg a = d := by
  simp only [build_speedup_and_efficiency, List.mem_map] at h
  exact h

/-! ## Claims C3, C8, C10, C7 -/

/-- C3 counterexample: with the `app` column present and zero data rows, the
load/aggregate pipeline does not fail — `load_runs` succeeds with an empty
record list and `aggregate` returns an empty table, so no `EmptyInputError`
(or any error) is raised on zero run records. -/
theorem c3_empty_input_counterexample :
    load_runs ⟨true, false, []⟩ = .ok [] ∧ aggregate [] = [] :=
  ⟨rfl, rfl⟩

/-- C3 (amended): supplying zero run records to the load/aggregate pipeline
does not fail; with a valid schema the load succeeds with an empty record
list and aggregation returns an empty table silently. -/
theorem c3_empty_input_silent (inp : RunsInput)
    (h : inp.hasApp = true ∨ inp.hasWhich = true) (hrows : inp.rows = []) :
    load_runs inp = .ok [] ∧ aggregate [] = [] := by
  refine ⟨?_, rfl⟩
  unfold load_runs
  rw [if_neg (by rcases h with h | h <;> simp [h]), hrows]
  rfl

/-- C3 witness. -/
theorem c3_empty_input_silent_witness :
    load_runs ⟨false, true, []⟩ = .ok [] ∧ aggregate [] = [] :=
  c3_empty_input_silent ⟨false, true, []⟩ (Or.inr rfl) rfl

/-- C8: loading fails as a whole (with the schema `ValueError`) exactly when
both the canonical `app` column and the legacy `which` column are absent;
when only `which` is present the load succeeds and every record's `app` is
taken from the `which` column. -/
theorem c8_schema_error_and_which_synonym (inp : RunsInput) :
    ((inp.hasApp = false ∧ inp.hasWhich = false) →
      load_runs inp = .error "Input CSV lacks app column; expected new bench schema.")
    ∧ (inp.hasApp = false → inp.hasWhich = true →
      ∃ rs, load_runs inp = .ok rs ∧ rs.map Run.app = inp.rows.map RawRow.whichVal) := by
  constructor
  · intro h
    unfold load_runs
    rw [if_pos h]
  · intro hA hW
    unfold load_runs
    rw [if_neg (by simp [hW])]
    refine ⟨_, rfl, ?_⟩
    simp [List.map_map, Function.comp, hA]

def rowW8 : RawRow := ⟨"", "blur_par", "lena", some 1, some 4, some 0, some 9, none⟩

def inpW8 : RunsInput := ⟨false, true, [rowW8]⟩

/-- C8 witness. -/
theorem c8_schema_witness :
    load_runs ⟨false, false, []⟩ = .error "Input CSV lacks app column; expected new bench schema."
    ∧ ∃ rs, load_runs inpW8 = .ok rs ∧ rs.map Run.app = inpW8.rows.map RawRow.whichVal :=
  ⟨(c8_schema_error_and_which_synonym ⟨false, false, []⟩).1 ⟨rfl, rfl⟩,
   (c8_schema_error_and_which_synonym inpW8).2 rfl rfl⟩

/-- C10: a derived row whose effective thread count is 0 carries a missing
(null) efficiency — line 89 replaces a zero `t_effective` by NaN before the
division `speedup / t_effective`, so no division by zero happens. -/
theorem c10_zero_threads_efficiency_missing (agg : List Agg) (d : Derived)
    (hd : d ∈ build_speedup_and_efficiency agg) (h0 : d.t_effective = some 0) :
    d.efficiency = none := by
  obtain ⟨a, _, rfl⟩ := mem_build hd
  have ha : a.t_effective = some 0 := h0
  simp [enrich, ha]

def aW10 : Agg :=
  ⟨"lena", some 1, "blur_par", "parallel (blur_par)", some 0, 2, some 5, some 1, none, none⟩

def aggW10 : List Agg := [aW10]

def dW10 : Derived := enrich aggW10 aW10

/-- C10 witness. -/
theorem c10_zero_threads_witness :
    dW10 ∈ build_speedup_and_efficiency aggW10 ∧ dW10.t_effective = some 0
    ∧ dW10.efficiency = none := by
  have hm : dW10 ∈ build_speedup_and_efficiency aggW10 := by
    show dW10 ∈ [dW10]
    exact List.mem_singleton_self dW10
  exact ⟨hm, rfl, c10_zero_threads_efficiency_missing aggW10 dW10 hm rfl⟩

/-- C7: the derived-metrics join is a left join — it emits exactly one output
row per aggregate row (same underlying aggregate data, in order), and a row
whose `(image, radius)` key has no qualifying baseline group carries null
`base_time`, `speedup` and `efficiency`; no error is raised. -/
theorem c7_missing_baseline_left_join (agg : List Agg) :
    (build_speedup_and_efficiency agg).map Derived.toAgg = agg
    ∧ ∀ d ∈ build_speedup_and_efficiency agg,
      (∀ b ∈ agg, ¬(b.image = d.image ∧ b.radius = d.radius ∧
          (b.app = "blur_par" ∨ b.app = "blur") ∧ b.t_effective = some 1)) →
      d.base_time = none ∧ d.speedup = none ∧ d.efficiency = none := by
  constructor
  · unfold build_speedup_and_efficiency
    rw [List.map_map, show Derived.toAgg ∘ enrich agg = id from funext fun _ => rfl,
      List.map_id]
  · intro d hd hnone
    obtain ⟨a, ha, rfl⟩ := mem_build hd
    have hempty1 : (agg.find? fun b =>
        decide (b.image = a.image ∧ b.radius = a.radius ∧ b.app = "blur_par" ∧
          b.t_effective = some 1)) = none := by
      rw [List.find?_eq_none]
      intro b hb
      simp only [decide_eq_true_eq, not_and]
      intro h1 h2 h3 h4
      exact hnone b hb ⟨h1, h2, Or.inl h3, h4⟩
    have hempty2 : (agg.find? fun b =>
        decide (b.image = a.image ∧ b.radius = a.radius ∧ b.app = "blur" ∧
          b.t_effective = some 1)) = none := by
      rw [List.find?_eq_none]
      intro b hb
      simp only [decide_eq_true_eq, not_and]
      intro h1 h2 h3 h4
      exact hnone b hb ⟨h1, h2, Or.inr h3, h4⟩
    have hbase : baseTimeFor agg a.image a.radius = none := by
      unfold baseTimeFor baseEntry
      rw [hempty1, hempty2]
      rfl
    cases ht : a.t_effective with
    | none => simp [enrich, hbase, ht]
    | some t =>
      by_cases h0 : t = 0 <;> simp [enrich, hbase, ht, h0]

def aW7 : Agg :=
  ⟨"pic", some 3, "blur_par", "parallel (blur_par)", some 4, 2, some 6, some 2, none, none⟩

def aggW7 : List Agg := [aW7]

def dW7 : Derived := enrich aggW7 aW7

/-- C7 witness. -/
theorem c7_missing_baseline_witness :
    (build_speedup_and_efficiency aggW7).map Derived.toAgg = aggW7
    ∧ dW7 ∈ build_speedup_and_efficiency aggW7
    ∧ dW7.base_time = none ∧ dW7.speedup = none ∧ dW7.efficiency = none := by
  have hm : dW7 ∈ build_speedup_and_efficiency aggW7 := by
    show dW7 ∈ [dW7]
    exact List.mem_singleton_self dW7
  have hno : ∀ b ∈ aggW7, ¬(b.image = dW7.image ∧ b.radius = dW7.radius ∧
      (b.app = "blur_par" ∨ b.app = "blur") ∧ b.t_effective = some 1) := by
    decide
  obtain ⟨h1, h2, h3⟩ := (c7_missing_baseline_left_join aggW7).2 dW7 hm hno
  exact ⟨(c7_missing_baseline_left_join aggW7).1, hm, h1, h2, h3⟩

/-! ## Claims C5, C6 -/

def runC5 : Run := ⟨"img2", some 2, "blur", "sequential (blur)", some 1, some 9, none⟩

def rsC5 : List Run := [runC5]

def aC5 : Agg := aggOfGroup (groupKey runC5) (groupRows rsC5 (groupKey runC5))

/-- C5 counterexample: for a group with a single observation the `std` columns
are NaN (pandas `std` with `ddof = 1`), not 0 — the `fillna(0)` on line 71
applies only inside the `ci95` computation and never writes the std column. -/
theorem c5_single_run_counterexample :
    ¬ (∀ a ∈ aggregate rsC5, a.runs = 1 →
        elapsed_std a = some 0 ∧ elapsed_ci95 a = 0
        ∧ rss_kb_std a = some 0 ∧ rss_kb_ci95 a = 0) := by
  intro h
  have hm : aC5 ∈ aggregate rsC5 := by
    show aC5 ∈ [aC5]
    exact List.mem_singleton_self aC5
  obtain ⟨h1, -, -, -⟩ := h aC5 hm rfl
  rw [show elapsed_std aC5 = none from rfl] at h1
  exact Option.noConfusion h1

/-- C5 (amended): for a group with `run_count == 1` the std fields are missing
(NaN), and both ci95 fields are 0 because the missing std is treated as 0
inside the ci95 computation. -/
theorem c5_single_run_std_missing_ci95_zero (rs : List Run) (a : Agg)
    (ha : a ∈ aggregate rs) (h1 : a.runs = 1) :
    elapsed_std a = none ∧ elapsed_ci95 a = 0
    ∧ rss_kb_std a = none ∧ rss_kb_ci95 a = 0 := by
  obtain ⟨k, hk, rfl⟩ := aggregate_mem ha
  have hlen : (groupRows rs k).length = 1 := h1
  have hev : (aggOfGroup k (groupRows rs k)).elapsed_var = none := by
    show sampleVar ((groupRows rs k).filterMap Run.elapsed_s) = none
    unfold sampleVar
    rw [if_neg]
    intro h2
    have := List.length_filterMap_le Run.elapsed_s (groupRows rs k)
    omega
  have hrv : (aggOfGroup k (groupRows rs k)).rss_kb_var = none := by
    show sampleVar ((groupRows rs k).filterMap Run.max_rss_kb) = none
    unfold sampleVar
    rw [if_neg]
    intro h2
    have := List.length_filterMap_le Run.max_rss_kb (groupRows rs k)
    omega
  refine ⟨?_, ?_, ?_, ?_⟩
  · simp [elapsed_std, hev]
  · simp [elapsed_ci95, elapsed_std, hev, ci95]
  · simp [rss_kb_std, hrv]
  · simp [rss_kb_ci95, rss_kb_std, hrv, ci95]

def runW5 : Run := ⟨"lena", some 1, "blur", "sequential (blur)", some 1, some 7, none⟩

def rsW5 : List Run := [runW5]

def aW5 : Agg := aggOfGroup (groupKey runW5) (groupRows rsW5 (groupKey runW5))

/-- C5 witness. -/
theorem c5_single_run_witness :
    aW5 ∈ aggregate rsW5 ∧ aW5.runs = 1
    ∧ elapsed_std aW5 = none ∧ elapsed_ci95 aW5 = 0
    ∧ rss_kb_std aW5 = none ∧ rss_kb_ci95 aW5 = 0 := by
  have hm : aW5 ∈ aggregate rsW5 := by
    show aW5 ∈ [aW5]
    exact List.mem_singleton_self aW5
  obtain ⟨h1, h2, h3, h4⟩ := c5_single_run_std_missing_ci95_zero rsW5 aW5 hm rfl
  exact ⟨hm, rfl, h1, h2, h3, h4⟩

def runC6 : Run := ⟨"img6", some 3, "blur", "sequential (blur)", some 1, some 11, none⟩

def rsC6 : List Run := [runC6]

def aC6 : Agg := aggOfGroup (groupKey runC6) (groupRows rsC6 (groupKey runC6))

/-- C6 counterexample: the ci95 column is not `1.96 * std / sqrt(max(n, 1))`
with `std` the group's std field — on a single-observation group that field is
NaN while ci95 is 0, so no value of the std field satisfies the equation. -/
theorem c6_ci95_formula_counterexample :
    ¬ (∀ a ∈ aggregate rsC6, 1 ≤ a.runs →
        ∃ s, elapsed_std a = some s
          ∧ elapsed_ci95 a = 1.96 * s / Real.sqrt (max a.runs 1)) := by
  intro h
  have hm : aC6 ∈ aggregate rsC6 := by
    show aC6 ∈ [aC6]
    exact List.mem_singleton_self aC6
  obtain ⟨s, hs, -⟩ := h aC6 hm (by decide)
  rw [show elapsed_std aC6 = none from rfl] at hs
  exact Option.noConfusion hs

/-- C6 (amended): every aggregate group has `run_count ≥ 1`, and each ci95
field equals `1.96 * std / sqrt(max(run_count, 1))` where the std used is the
group's std field with a missing value replaced by 0 (the `fillna(0)` of
lines 71-72). -/
theorem c6_ci95_formula_fillna (rs : List Run) (a : Agg) (ha : a ∈ aggregate rs) :
    1 ≤ a.runs
    ∧ elapsed_ci95 a = 1.96 * ((elapsed_std a).getD 0) / Real.sqrt (max a.runs 1)
    ∧ rss_kb_ci95 a = 1.96 * ((rss_kb_std a).getD 0) / Real.sqrt (max a.runs 1) := by
  refine ⟨?_, ?_, ?_⟩
  · obtain ⟨k, hk, rfl⟩ := aggregate_mem ha
    exact groupRows_length_pos hk
  · rw [elapsed_ci95, ci95, mul_div_assoc]
  · rw [rss_kb_ci95, ci95, mul_div_assoc]

def runW6 : Run := ⟨"pic6", some 1, "blur", "sequential (blur)", some 1, some 4, none⟩

def rsW6 : List Run := [runW6]

def aW6 : Agg := aggOfGroup (groupKey runW6) (groupRows rsW6 (groupKey runW6))

/-- C6 witness. -/
theorem c6_ci95_formula_witness :
    aW6 ∈ aggregate rsW6 ∧ 1 ≤ aW6.runs
    ∧ elapsed_ci95 aW6 = 1.96 * ((elapsed_std aW6).getD 0) / Real.sqrt (max aW6.runs 1)
    ∧ rss_kb_ci95 aW6 = 1.96 * ((rss_kb_std aW6).getD 0) / Real.sqrt (max aW6.runs 1) := by
  have hm : aW6 ∈ aggregate rsW6 := by
    show aW6 ∈ [aW6]
    exact List.mem_singleton_self aW6
  obtain ⟨h1, h2, h3⟩ := c6_ci95_formula_fillna rsW6 aW6 hm
  exact ⟨hm, h1, h2, h3⟩

/-! ## Claim C4 -/

/-- C4: for rows produced by `load_runs` and grouped by `aggregate`, the
baseline joined into the derived metrics is the `blur_par` group at
`t_effective == 1` whenever one exists for the row's `(image, radius)` key;
only in its absence is the sequential (`blur`) group at `t_effective == 1`
used; and when neither exists the derived metrics are all missing for that
row, with no error. -/
theorem c4_baseline_prefers_parallel (inp : RunsInput) (rs : List Run)
    (hload : load_runs inp = .ok rs) (d : Derived)
    (hd : d ∈ build_speedup_and_efficiency (aggregate rs)) :
    (∀ p ∈ aggregate rs, p.image = d.image → p.radius = d.radius → p.app = "blur_par" →
        p.t_effective = some 1 → d.base_time = p.elapsed_mean)
    ∧ ((∀ p ∈ aggregate rs, p.image = d.image → p.radius = d.radius → p.app = "blur_par" →
          p.t_effective ≠ some 1) →
        ∀ s ∈ aggregate rs, s.image = d.image → s.radius = d.radius → s.app = "blur" →
          s.t_effective = some 1 → d.base_time = s.elapsed_mean)
    ∧ ((∀ p ∈ aggregate rs, p.image = d.image → p.radius = d.radius →
          (p.app = "blur_par" ∨ p.app = "blur") → p.t_effective ≠ some 1) →
        d.base_time = none ∧ d.speedup = none ∧ d.efficiency = none) := by
  have hlab := load_runs_app_label hload
  obtain ⟨a, ha, rfl⟩ := mem_build hd
  refine ⟨?_, ?_, ?_⟩
  · intro p hp h1 h2 h3 h4
    have h1' : p.image = a.image := h1
    have h2' : p.radius = a.radius := h2
    have hsome : ((aggregate rs).find? (fun b =>
        decide (b.image = a.image ∧ b.radius = a.radius ∧ b.app = "blur_par" ∧
          b.t_effective = some 1))).isSome := by
      rw [List.find?_isSome]
      exact ⟨p, hp, by simp only [decide_eq_true_eq]; exact ⟨h1', h2', h3, h4⟩⟩
    obtain ⟨q, hq⟩ := Option.isSome_iff_exists.mp hsome
    have hqmem := List.mem_of_find?_eq_some hq
    have hqp := List.find?_some hq
    simp only [decide_eq_true_eq] at hqp
    obtain ⟨hq1, hq2, hq3, hq4⟩ := hqp
    have hqp_eq : q = p :=
      aggregate_unique hlab hqmem hp (hq1.trans h1'.symm) (hq2.trans h2'.symm)
        (hq3.trans h3.symm) (hq4.trans h4.symm)
    show baseTimeFor (aggregate rs) a.image a.radius = p.elapsed_mean
    unfold baseTimeFor baseEntry
    rw [hq, hqp_eq]
    rfl
  · intro hno s hs h1 h2 h3 h4
    have h1' : s.image = a.image := h1
    have h2' : s.radius = a.radius := h2
    have hnone1 : ((aggregate rs).find? (fun b =>
        decide (b.image = a.image ∧ b.radius = a.radius ∧ b.app = "blur_par" ∧
          b.t_effective = some 1))) = none := by
      rw [List.find?_eq_none]
      intro b hb
      simp only [decide_eq_true_eq, not_and]
      intro hb1 hb2 hb3
      exact hno b hb hb1 hb2 hb3
    have hsome : ((aggregate rs).find? (fun b =>
        decide (b.image = a.image ∧ b.radius = a.radius ∧ b.app = "blur" ∧
          b.t_effective = some 1))).isSome := by
      rw [List.find?_isSome]
      exact ⟨s, hs, by simp only [decide_eq_true_eq]; exact ⟨h1', h2', h3, h4⟩⟩
    obtain ⟨q, hq⟩ := Option.isSome_iff_exists.mp hsome
    have hqmem := List.mem_of_find?_eq_some hq
    have hqs := List.find?_some hq
    simp only [decide_eq_true_eq] at hqs
    obtain ⟨hq1, hq2, hq3, hq4⟩ := hqs
    have hqs_eq : q = s :=
      aggregate_unique hlab hqmem hs (hq1.trans h1'.symm) (hq2.trans h2'.symm)
        (hq3.trans h3.symm) (hq4.trans h4.symm)
    show baseTimeFor (aggregate rs) a.image a.radius = s.elapsed_mean
    unfold baseTimeFor baseEntry
    rw [hnone1, hq, hqs_eq]
    rfl
  · intro hno
    have hnone1 : ((aggregate rs).find? (fun b =>
        decide (b.image = a.image ∧ b.radius = a.radius ∧ b.app = "blur_par" ∧
          b.t_effective = some 1))) = none := by
      rw [List.find?_eq_none]
      intro b hb
      simp only [decide_eq_true_eq, not_and]
      intro hb1 hb2 hb3
      exact hno b hb hb1 hb2 (Or.inl hb3)
    have hnone2 : ((aggregate rs).find? (fun b =>
        decide (b.image = a.image ∧ b.radius = a.radius ∧ b.app = "blur" ∧
          b.t_effective = some 1))) = none := by
      rw [List.find?_eq_none]
      intro b hb
      simp only [decide_eq_true_eq, not_and]
      intro hb1 hb2 hb3
      exact hno b hb hb1 hb2 (Or.inr hb3)
    have hbase : baseTimeFor (aggregate rs) a.image a.radius = none := by
      unfold baseTimeFor baseEntry
      rw [hnone1, hnone2]
      rfl
    cases ht : a.t_effective with
    | none => simp [enrich, hbase, ht]
    | some t =>
      by_cases h0 : t = 0 <;> simp [enrich, hbase, ht, h0]

def rawW4 : RawRow := ⟨"blur_par", "", "lena", some 2, some 1, some 0, some 5, none⟩

def inpW4 : RunsInput := ⟨true, false, [rawW4]⟩

def runW4 : Run := ⟨"lena", some 2, "blur_par", "parallel (blur_par)", some 1, some 5, none⟩

def rsW4 : List Run := [runW4]

def aW4 : Agg := aggOfGroup (groupKey runW4) (groupRows rsW4 (groupKey runW4))

def dW4 : Derived := enrich (aggregate rsW4) aW4

/-- C4 witness. -/
theorem c4_baseline_witness :
    load_runs inpW4 = .ok rsW4
    ∧ dW4 ∈ build_speedup_and_efficiency (aggregate rsW4)
    ∧ aW4 ∈ aggregate rsW4 ∧ aW4.app = "blur_par" ∧ aW4.t_effective = some 1
    ∧ dW4.base_time = aW4.elapsed_mean := by
  have hd : dW4 ∈ build_speedup_and_efficiency (aggregate rsW4) := by
    show dW4 ∈ [dW4]
    exact List.mem_singleton_self dW4
  have hp : aW4 ∈ aggregate rsW4 := by
    show aW4 ∈ [aW4]
    exact List.mem_singleton_self aW4
  refine ⟨rfl, hd, hp, rfl, rfl, ?_⟩
  exact (c4_baseline_prefers_parallel inpW4 rsW4 rfl dW4 hd).1 aW4 hp rfl rfl rfl rfl

/-! ## Claim C9 -/

lemma firstMinBy_go {α : Type} {lt : α → α → Bool}
    (hTrans : ∀ a b c, lt a b = true → lt b c = true → lt a c = true)
    (hIrr : ∀ a, lt a a = false) :
    ∀ (l : List α) (m x : α),
      l.foldl (fun acc x => match acc with
        | none => some x
        | some y => if lt x y then some x else some y) (some m) = some x →
      (x = m ∨ x ∈ l) ∧ (x = m ∨ lt x m = true) ∧ ∀ y ∈ l, lt y x = false := by
  intro l
  induction l with
  | nil =>
    intro m x h
    simp only [List.foldl_nil, Option.some.injEq] at h
    subst h
    exact ⟨Or.inl rfl, Or.inl rfl, by simp⟩
  | cons z zs ih =>
    intro m x h
    simp only [List.foldl_cons] at h
    by_cases hzm : lt z m = true
    · rw [if_pos hzm] at h
      obtain ⟨ih1, ih2, ih3⟩ := ih z x h
      refine ⟨?_, ?_, ?_⟩
      · rcases ih1 with rfl | hx
        · exact Or.inr (List.mem_cons_self _ _)
        · exact Or.inr (List.mem_cons_of_mem z hx)
      · rcases ih2 with rfl | hxz
        · exact Or.inr hzm
        · exact Or.inr (hTrans x z m hxz hzm)
      · intro y hy
        rcases List.mem_cons.mp hy with rfl | hyzs
        · rcases ih2 with rfl | hxz
          · exact hIrr x
          · rw [Bool.eq_false_iff]
            intro hzx
            exact absurd (hTrans y x y hzx hxz) (by rw [hIrr y]; simp)
        · exact ih3 y hyzs
    · rw [if_neg hzm] at h
      obtain ⟨ih1, ih2, ih3⟩ := ih m x h
      refine ⟨?_, ?_, ?_⟩
      · rcases ih1 with rfl | hx
        · exact Or.inl rfl
        · exact Or.inr (List.mem_cons_of_mem z hx)
      · exact ih2
      · intro y hy
        rcases List.mem_cons.mp hy with rfl | hyzs
        · rcases ih2 with rfl | hxm
          · exact Bool.eq_false_iff.mpr (fun hc => hzm hc)
          · rw [Bool.eq_false_iff]
            intro hzx
            exact hzm (hTrans y x m hzx hxm)
        · exact ih3 y hyzs

lemma firstMinBy_spec {α : Type} {lt : α → α → Bool}
    (hTrans : ∀ a b c, lt a b = true → lt b c = true → lt a c = true)
    (hIrr : ∀ a, lt a a = false) {l : List α} {x : α}
    (h : firstMinBy lt l = some x) : x ∈ l ∧ ∀ y ∈ l, lt y x = false := by
  cases l with
  | nil => exact absurd h (by simp [firstMinBy])
  | cons z zs =>
    unfold firstMinBy at h
    simp only [List.foldl_cons] at h
    obtain ⟨h1, h2, h3⟩ := firstMinBy_go hTrans hIrr zs z x h
    constructor
    · rcases h1 with rfl | hx
      · exact List.mem_cons_self _ _
      · exact List.mem_cons_of_mem z hx
    · intro y hy
      rcases List.mem_cons.mp hy with rfl | hyzs
      · rcases h2 with rfl | hxz
        · exact hIrr x
        · rw [Bool.eq_false_iff]
          intro hzx
          exact absurd (hTrans y x y hzx hxz) (by rw [hIrr y]; simp)
      · exact h3 y hyzs

/-- C9 (amended): for every `(image, radius)` key for which `write_summary`
emits a row — that is, some group at `t_effective == 1` exists for the key —
the row's "best" fields are those of a parallel-engine derived record for
that key whose `elapsed_mean` is minimal among all parallel records with a
present mean for that key (i.e. over all thread counts); and when no parallel
record exists, the row reports the baseline itself: `best_threads = 1`,
`best_speedup = 1`, `efficiency_at_best = 1`, and `best_time` equal to the
baseline time.  (A key with no `t_effective == 1` group is skipped by the
`continue` on lines 188-189 and yields no row at all, even when parallel
records exist — the counterexample below.) -/
theorem c9_best_parallel_query (agg : List Agg) (img : String) (rad : ℚ) (s : SummaryRow)
    (h : summaryFor agg img rad = .ok (some s)) :
    (∃ best ∈ parRows agg img rad, best.elapsed_mean.isSome = true ∧
        s.best_threads = best.t_effective ∧ s.best_time = best.elapsed_mean ∧
        s.best_speedup = best.speedup ∧ s.efficiency_at_best = best.efficiency ∧
        ∀ d ∈ parRows agg img rad, ∀ m, d.elapsed_mean = some m →
          ∃ mb, best.elapsed_mean = some mb ∧ mb ≤ m)
    ∨ (parRows agg img rad = [] ∧ s.best_threads = some 1 ∧ s.best_speedup = some 1
        ∧ s.efficiency_at_best = some 1 ∧ s.best_time = s.baseline_time) := by
  cases hbase : firstMinBy (fun a b => charListLt a.app.data b.app.data)
      (agg.filter (fun a =>
        decide (a.image = img ∧ a.radius = some rad ∧ a.t_effective = some 1))) with
  | none =>
    have hval : summaryFor agg img rad = .ok none := by
      unfold summaryFor
      rw [hbase]
    rw [hval] at h
    exact absurd h (by simp)
  | some base_row =>
    cases hpar : parRows agg img rad with
    | nil =>
      have hval : summaryFor agg img rad = .ok (some
          { image := img, radius := rad, baseline_prog := base_row.app_label,
            baseline_time := base_row.elapsed_mean, best_threads := some 1,
            best_time := base_row.elapsed_mean, best_speedup := some 1,
            efficiency_at_best := some 1 }) := by
        unfold summaryFor
        rw [hbase, hpar]
      rw [hval] at h
      injection h with h1
      injection h1 with h2
      subst h2
      exact Or.inr ⟨rfl, rfl, rfl, rfl, rfl⟩
    | cons p ps =>
      cases hmin : firstMinBy (fun a b => decide (a.elapsed_mean.getD 0 < b.elapsed_mean.getD 0))
          ((parRows agg img rad).filter (fun d => d.elapsed_mean.isSome)) with
      | none =>
        have hval : summaryFor agg img rad = .error "idxmin over all-NaN elapsed_mean" := by
          unfold summaryFor
          rw [hbase, hmin, hpar]
        rw [hval] at h
        exact absurd h (by simp)
      | some best =>
        have hval : summaryFor agg img rad = .ok (some
            { image := img, radius := rad, baseline_prog := base_row.app_label,
              baseline_time := base_row.elapsed_mean, best_threads := best.t_effective,
              best_time := best.elapsed_mean, best_speedup := best.speedup,
              efficiency_at_best := best.efficiency }) := by
          unfold summaryFor
          rw [hbase, hmin, hpar]
        rw [hval] at h
        injection h with h1
        injection h1 with h2
        subst h2
        rw [← hpar]
        have hTr : ∀ a b c : Derived,
            decide (a.elapsed_mean.getD 0 < b.elapsed_mean.getD 0) = true →
            decide (b.elapsed_mean.getD 0 < c.elapsed_mean.getD 0) = true →
            decide (a.elapsed_mean.getD 0 < c.elapsed_mean.getD 0) = true := by
          intro a b c hab hbc
          rw [decide_eq_true_iff] at hab hbc ⊢
          exact lt_trans hab hbc
        have hIr : ∀ a : Derived,
            decide (a.elapsed_mean.getD 0 < a.elapsed_mean.getD 0) = false := by
          intro a
          simp
        obtain ⟨hmem, hminimal⟩ := firstMinBy_spec hTr hIr hmin
        rw [List.mem_filter] at hmem
        obtain ⟨hmemPar, hisSome⟩ := hmem
        refine Or.inl ⟨best, hmemPar, hisSome, rfl, rfl, rfl, rfl, ?_⟩
        intro d hd m hm
        have hdfilter : d ∈ (parRows agg img rad).filter (fun d => d.elapsed_mean.isSome) :=
          List.mem_filter.mpr ⟨hd, by simp [hm]⟩
        have hle := hminimal d hdfilter
        obtain ⟨mb, hmb⟩ := Option.isSome_iff_exists.mp hisSome
        refine ⟨mb, hmb, ?_⟩
        rw [decide_eq_false_iff_not, not_lt, hm, hmb] at hle
        simpa using hle

def aW9 : Agg :=
  ⟨"lena", some 1, "blur", "sequential (blur)", some 1, 3, some 7, none, none, none⟩

def aggW9 : List Agg := [aW9]

def sW9 : SummaryRow :=
  ⟨"lena", 1, "sequential (blur)", some 7, some 1, some 7, some 1, some 1⟩

/-- C9 witness. -/
theorem c9_best_parallel_witness :
    summaryFor aggW9 "lena" 1 = .ok (some sW9)
    ∧ ((∃ best ∈ parRows aggW9 "lena" 1, best.elapsed_mean.isSome = true ∧
          sW9.best_threads = best.t_effective ∧ sW9.best_time = best.elapsed_mean ∧
          sW9.best_speedup = best.speedup ∧ sW9.efficiency_at_best = best.efficiency ∧
          ∀ d ∈ parRows aggW9 "lena" 1, ∀ m, d.elapsed_mean = some m →
            ∃ mb, best.elapsed_mean = some mb ∧ mb ≤ m)
      ∨ (parRows aggW9 "lena" 1 = [] ∧ sW9.best_threads = some 1 ∧ sW9.best_speedup = some 1
          ∧ sW9.efficiency_at_best = some 1 ∧ sW9.best_time = sW9.baseline_time)) :=
  ⟨rfl, c9_best_parallel_query aggW9 "lena" 1 sW9 rfl⟩

def aC9 : Agg :=
  ⟨"imgX", some 1, "blur_par", "parallel (blur_par)", some 2, 3, some 5, none, none, none⟩

def aggC9 : List Agg := [aC9]

def dC9 : Derived := enrich aggC9 aC9

/-- C9 counterexample: a key whose only groups are parallel at
`t_effective == 2` (no group at `t_effective == 1` at all) has a parallel
derived record with a present `elapsed_mean`, yet `write_summary` emits no
row for it (`base_rows` is empty, so the loop `continue`s on lines 188-189):
the query does not return the minimum-`elapsed_mean` parallel record for
this key, refuting the claim's "for every (image, radius) key". -/
theorem c9_skipped_key_counterexample :
    dC9 ∈ parRows aggC9 "imgX" 1 ∧ dC9.elapsed_mean = some 5
    ∧ ¬∃ s, summaryFor aggC9 "imgX" 1 = .ok (some s) := by
  refine ⟨?_, rfl, ?_⟩
  · show dC9 ∈ [dC9]
    exact List.mem_singleton_self dC9
  · intro ⟨s, hs⟩
    rw [show summaryFor aggC9 "imgX" 1 = .ok none from rfl] at hs
    injection hs with h1
    exact Option.noConfusion h1

/-! ## Claims C1, C2 -/

lemma optQLe_trans {x y z : Option ℚ} (h1 : optQLe x y = true) (h2 : optQLe y z = true) :
    optQLe x z = true := by
  cases x with
  | none => simp [optQLe]
  | some a =>
    cases y with
    | none => simp [optQLe] at h1
    | some b =>
      cases z with
      | none => simp [optQLe] at h2
      | some c =>
        simp only [optQLe, decide_eq_true_eq] at h1 h2 ⊢
        exact le_trans h1 h2

lemma optQLe_total (x y : Option ℚ) : (optQLe x y || optQLe y x) = true := by
  cases x <;> cases y <;> simp [optQLe]
  exact le_total _ _

lemma optQLe_antisymm {x y : Option ℚ} (h1 : optQLe x y = true) (h2 : optQLe y x = true) :
    x = y := by
  cases x with
  | none =>
    cases y with
    | none => rfl
    | some b => simp [optQLe] at h2
  | some a =>
    cases y with
    | none => simp [optQLe] at h1
    | some b =>
      simp only [optQLe, decide_eq_true_eq] at h1 h2
      exact congrArg some (le_antisymm h1 h2)

lemma hotspotDescLe_trans (a b c : HotspotRecord)
    (hab : hotspotDescLe a b = true) (hbc : hotspotDescLe b c = true) :
    hotspotDescLe a c = true := by
  unfold hotspotDescLe at hab hbc ⊢
  by_cases h1 : a.cost_percent = b.cost_percent
  · by_cases h2 : b.cost_percent = c.cost_percent
    · rw [if_pos h1] at hab
      rw [if_pos h2] at hbc
      rw [if_pos (h1.trans h2)]
      exact optQLe_trans hbc hab
    · rw [if_pos h1] at hab
      rw [if_neg h2] at hbc
      rw [if_neg (fun hc => h2 (h1.symm.trans hc)), h1]
      exact hbc
  · by_cases h2 : b.cost_percent = c.cost_percent
    · rw [if_neg h1] at hab
      rw [if_neg (fun hc => h1 (hc.trans h2.symm)), ← h2]
      exact hab
    · rw [if_neg h1] at hab
      rw [if_neg h2] at hbc
      have hac : a.cost_percent ≠ c.cost_percent := by
        intro hc
        exact h1 (optQLe_antisymm (hc.symm ▸ hbc) hab)
      rw [if_neg hac]
      exact optQLe_trans hbc hab

lemma hotspotDescLe_total (a b : HotspotRecord) :
    (hotspotDescLe a b || hotspotDescLe b a) = true := by
  unfold hotspotDescLe
  by_cases h : a.cost_percent = b.cost_percent
  · rw [if_pos h, if_pos h.symm]
    exact optQLe_total b.cost_count a.cost_count
  · rw [if_neg h, if_neg (fun hc => h hc.symm)]
    exact optQLe_total b.cost_percent a.cost_percent

/-- C1: the full hotspot output sequence is sorted descending by
`cost_percent`, ties broken descending by `cost_count`, for every input —
hence regardless of the input line order and of the `rank` values carried on
the lines (the sort never consults `rank`).  The in-`src/` consumer
`write_profile_summary` only head-truncates this sequence, which preserves
the order. -/
theorem c1_hotspot_output_sorted (delim : Char) (input : List String) :
    (parseHotspotReport delim input).Pairwise (fun a b => hotspotDescLe a b = true) := by
  unfold parseHotspotReport
  exact List.sorted_mergeSort hotspotDescLe_trans hotspotDescLe_total _

/-- C2: parsing the line `1,foo,bar,baz,1234,56.7,10` with delimiter `,`
yields rank 1, the function name `foo,bar,baz` rejoined with the delimiter,
cost_count 1234, cost_percent 56.7 and calls 10 — the trailing three tokens
are read from the end as calls, cost_percent, cost_count. -/
theorem c2_hotspot_line_roundtrip :
    parseHotspotLine ',' "1,foo,bar,baz,1234,56.7,10"
      = some { rank := 1, function := "foo,bar,baz", cost_count := some 1234,
               cost_percent := some (56.7 : ℚ), calls := some 10 } := by
  have h0 : parseHotspotLine ',' "1,foo,bar,baz,1234,56.7,10" = some
      { rank := 1, function := "foo,bar,baz",
        cost_count := some ((1234 : ℕ) : ℚ),
        cost_percent := some (((56 : ℕ) : ℚ) + ((7 : ℕ) : ℚ) / (10 : ℚ) ^ 1),
        calls := some 10 } := rfl
  rw [h0]
  simp only [Option.some.injEq, HotspotRecord.mk.injEq]
  norm_num
